import Mathlib

/-!
Verification of the SNMP client library's identifier model, type/value system
and BER codec.

The Go source is embedded shallowly:

* `[]byte` becomes `List Nat` (each element intended to be `< 256`; theorems
  that quantify over byte slices carry that bound as a hypothesis);
* Go's 64-bit two's-complement `int`/`int64` arithmetic is modelled on `Int`
  by tracking the unsigned 64-bit bit pattern as a `Nat` reduced mod `2^64`
  and reading it back through `sint64`;
* fallible Go functions returning `(value, tail, error)` become `DecResult`,
  which also has an explicit `panicked` constructor for Go runtime panics
  (out-of-range slice indexing, negative shift counts, explicit `panic` calls);
* Go strings are processed as `List Char`.
-/

/-- Interprets an unsigned 64-bit pattern (a `Nat` below `2^64`) as a Go
`int64` value. -/
def sint64 (u : Nat) : Int :=
  if u < 2 ^ 63 then (u : Int) else (u : Int) - 2 ^ 64

/-- Interprets an unsigned 32-bit pattern as a Go `int32` value. -/
def sint32 (u : Nat) : Int :=
  if u < 2 ^ 31 then (u : Int) else (u : Int) - 2 ^ 32

/-- The unsigned 64-bit bit pattern of a Go `int64` value. -/
def toU64 (v : Int) : Nat :=
  (v % (2 ^ 64 : Int)).toNat

/-- Go 64-bit signed wrap-around: the result of an `int64` computation whose
mathematical value is `x`. -/
def wrapInt64 (x : Int) : Int :=
  sint64 (toU64 x)

/-- Error conditions produced by the BER decoding functions in `value.go`.
Each constructor corresponds to one `fmt.Errorf`/`errors.New` site. -/
inductive DecErr where
  /-- "no data" -/
  | noData
  /-- "length of length is longer than the remaining data" -/
  | lenOfLenTooLong
  /-- "negative length (overflow)" -/
  | negLengthOverflow
  /-- "zero-length integer" -/
  | zeroLengthInt
  /-- "integer too large (...) to fit into integer of bit-size ..." -/
  | intTooLarge
  /-- "truncated integer: ... bytes, expected ... bytes" -/
  | truncatedInt
  /-- "truncated bytes: ... bytes, expected ... bytes" -/
  | truncatedBytes
  /-- "unsupported type tag %d" -/
  | unsupportedTag (tag : Nat)
  /-- "not implemented" (OID and IP-address payload decoders) -/
  | notImplemented
  deriving DecidableEq, Repr

/-- Result of a Go decode function returning `(value, tail []byte, error)`.
`panicked` models a Go runtime panic (it aborts the caller, so callers
propagate it). -/
inductive DecResult (α : Type) where
  /-- Successful decode: the value and the remaining input. -/
  | ok (v : α) (tail : List Nat)
  /-- Error return; `tail` is the byte slice returned alongside the error. -/
  | err (e : DecErr) (tail : List Nat)
  /-- The Go code panics at runtime on this input. -/
  | panicked
  deriving DecidableEq, Repr

/-- True exactly on the `err` constructor. -/
def DecResult.isErr {α : Type} : DecResult α → Bool
  | .err _ _ => true
  | _ => false

/-- Embedding of `decodeBERLength` (`value.go`).  Short form returns the
byte itself; `0x80` returns `-1` (the indefinite marker) with a nil error;
long form accumulates `length = length<<8 | b[i+1]` over the declared count
of bytes in Go `int` (64-bit, wrapping) arithmetic and rejects only results
that wrap to a negative value. -/
def decodeBERLength : List Nat → DecResult Int
  | [] => .err .noData []
  | b0 :: rest =>
    if b0 = 0x80 then
      .ok (-1) rest
    else if b0 ≤ 0x7F then
      .ok (b0 : Int) rest
    else
      -- long form: `b0 & 0x7f`; for `0x81 ≤ b0 ≤ 0xFF` this is `b0 % 0x80`
      let lengthLength := b0 % 0x80
      if lengthLength > rest.length then
        .err .lenOfLenTooLong (b0 :: rest)
      else
        let u := (rest.take lengthLength).foldl
          (fun acc byte => (acc * 256 + byte) % 2 ^ 64) 0
        let length := sint64 u
        if length < 0 then
          .err .negLengthOverflow (b0 :: rest)
        else
          .ok length (rest.drop lengthLength)

/-- Embedding of `decodeBERUInt` (`value.go`).  `size` is the Go `int`
argument.  A negative decoded length (the `-1` indefinite marker) passes all
three error checks and then panics at `b[length:]`. -/
def decodeBERUInt (b : List Nat) (size : Int) : DecResult Nat :=
  match decodeBERLength b with
  | .err e t => .err e t
  | .panicked => .panicked
  | .ok length b =>
    if length = 0 then .err .zeroLengthInt b
    else if length > size then .err .intTooLarge b
    else if length > (b.length : Int) then .err .truncatedInt b
    else if length < 0 then .panicked
    else
      let n := length.toNat
      let value := (b.take n).foldl (fun acc byte => (acc * 256 + byte) % 2 ^ 64) 0
      .ok value (b.drop n)

/-- Embedding of `decodeBERInt` (`value.go`).  Accumulates in `int64`
(wrapping) arithmetic, then sign-extends via
`value |= -1 << (8*length)` when bit `8*length - 1` of the accumulated
pattern is set.  A negative decoded length passes the three error checks and
then panics at the negative shift `1 << (8*length - 1)`. -/
def decodeBERInt (b : List Nat) (size : Int) : DecResult Int :=
  match decodeBERLength b with
  | .err e t => .err e t
  | .panicked => .panicked
  | .ok length b =>
    if length = 0 then .err .zeroLengthInt b
    else if length > size then .err .intTooLarge b
    else if length > (b.length : Int) then .err .truncatedInt b
    else if length < 0 then .panicked
    else
      let n := length.toNat
      let u := (b.take n).foldl (fun acc byte => (acc * 256 + byte) % 2 ^ 64) 0
      let u' := if u &&& ((1 <<< (8 * n - 1)) % 2 ^ 64) ≠ 0 then
          u ||| (((2 ^ 64 - 1) <<< (8 * n)) % 2 ^ 64)
        else u
      .ok (sint64 u') (b.drop n)

/-- Embedding of `decodeBERInt32` (`value.go`): decode with size 4, then
truncate the `int64` result to `int32`. -/
def decodeBERInt32 (b : List Nat) : DecResult Int :=
  match decodeBERInt b 4 with
  | .err e t => .err e t
  | .panicked => .panicked
  | .ok v t => .ok (sint32 (toU64 v % 2 ^ 32)) t

/-- Embedding of `decodeBERUInt32` (`value.go`): decode with size 4, then
truncate the `uint64` result to `uint32`. -/
def decodeBERUInt32 (b : List Nat) : DecResult Nat :=
  match decodeBERUInt b 4 with
  | .err e t => .err e t
  | .panicked => .panicked
  | .ok v t => .ok (v % 2 ^ 32) t

/-- Embedding of `decodeBERUInt64` (`value.go`). -/
def decodeBERUInt64 (b : List Nat) : DecResult Nat :=
  decodeBERUInt b 8

/-- Embedding of `decodeBERBytes` (`value.go`).  After a successful length
decode only `length > len(b)` is checked, so the `-1` indefinite marker
reaches the slice expression `b[:length]` and panics. -/
def decodeBERBytes (b : List Nat) : DecResult (List Nat) :=
  match decodeBERLength b with
  | .err e t => .err e t
  | .panicked => .panicked
  | .ok length b =>
    if length > (b.length : Int) then .err .truncatedBytes b
    else if length < 0 then .panicked
    else .ok (b.take length.toNat) (b.drop length.toNat)

/-! ## Type tag registry (`typeTag` constants, types file) -/

def tagEndOfContents : Nat := 0x00
def tagUnknownType : Nat := 0x00
def tagBoolean : Nat := 0x01
def tagInteger : Nat := 0x02
def tagBitString : Nat := 0x03
def tagOctetString : Nat := 0x04
def tagNull : Nat := 0x05
def tagObjectIdentifier : Nat := 0x06
def tagObjectDescription : Nat := 0x07
def tagIpAddress : Nat := 0x40
def tagCounter32 : Nat := 0x41
def tagGauge32 : Nat := 0x42
def tagTimeTicks : Nat := 0x43
def tagOpaque : Nat := 0x44
def tagNsapAddress : Nat := 0x45
def tagCounter64 : Nat := 0x46
def tagUTnteger32 : Nat := 0x47
def tagOpaqueFloat : Nat := 0x78
def tagOpaqueDouble : Nat := 0x79
def tagNoSuchObject : Nat := 0x80
def tagNoSuchInstance : Nat := 0x81
def tagEndOfMibView : Nat := 0x82

/-- Opaque stand-in for a Go `float32` payload: the raw bit pattern.  None of
the functions under verification ever interpret it. -/
structure GoFloat32 where
  bits : Nat
  deriving DecidableEq, Repr

/-- Opaque stand-in for a Go `float64` payload: the raw bit pattern. -/
structure GoFloat64 where
  bits : Nat
  deriving DecidableEq, Repr

/-- The closed set of SNMP type kinds.  The first sixteen constructors embed
the `XxxType` structs defined in the types source file; `timeTicks` and the
three sentinel kinds are referenced by the value methods but their type
structs are not among the provided sources, so their behaviour is modelled
from the spec. -/
inductive SnmpType where
  | boolean
  | integer
  | bitString
  | octetString
  | objectIdentifier
  | objectDescription
  | ipAddress
  | counter32
  | gauge32
  | opaqueData
  | nsapAddress
  | counter64
  | uinteger32
  | opaqueFloat
  | opaqueDouble
  | null
  | timeTicks
  | noSuchObject
  | noSuchInstance
  | endOfMibView
  deriving DecidableEq, Repr

/-- Embedding of the `Tag()` methods of the type structs.  Note that the
source's `Counter32Type.Tag` returns `int(tagIpAddress)`, not
`int(tagCounter32)`.  The tags of `timeTicks` and of the three sentinel
kinds are modelled from the spec: -- their `Tag()` methods are not among the
provided sources; the spec's registry assigns time-ticks=0x43 and the
sentinel kinds 0x80/0x81/0x82. -/
def SnmpType.Tag : SnmpType → Nat
  | .boolean => tagBoolean
  | .integer => tagInteger
  | .bitString => tagBitString
  | .octetString => tagOctetString
  | .objectIdentifier => tagObjectIdentifier
  | .objectDescription => tagObjectDescription
  | .ipAddress => tagIpAddress
  | .counter32 => tagIpAddress
  | .gauge32 => tagGauge32
  | .opaqueData => tagOpaque
  | .nsapAddress => tagNsapAddress
  | .counter64 => tagCounter64
  | .uinteger32 => tagUTnteger32
  | .opaqueFloat => tagOpaqueFloat
  | .opaqueDouble => tagOpaqueDouble
  | .null => tagNull
  | .timeTicks => tagTimeTicks
  | .noSuchObject => tagNoSuchObject
  | .noSuchInstance => tagNoSuchInstance
  | .endOfMibView => tagEndOfMibView

/-- The sealed `Value` interface: one constructor per value struct in
`value.go`, carrying its native payload. -/
inductive Value where
  | boolean (b : Bool)
  | integer (i : Int)
  | bitString (bs : List Bool)
  | octetString (bytes : List Nat)
  | objectIdentifier (oid : List Int)
  | objectDescription (s : String)
  | ipAddress (ip : List Nat)
  | counter32 (u : Nat)
  | opaqueData (bytes : List Nat)
  | nsapAddress (bytes : List Nat)
  | counter64 (u : Nat)
  | uinteger32 (u : Nat)
  | opaqueFloat (f : GoFloat32)
  | opaqueDouble (f : GoFloat64)
  | timeTicks (duration : Int)
  | null
  | noSuchObject
  | noSuchInstance
  | endOfMibView
  deriving DecidableEq, Repr

/-- Embedding of the `Type()` methods of the value structs in `value.go`. -/
def Value.type : Value → SnmpType
  | .boolean _ => .boolean
  | .integer _ => .integer
  | .bitString _ => .bitString
  | .octetString _ => .octetString
  | .objectIdentifier _ => .objectIdentifier
  | .objectDescription _ => .objectDescription
  | .ipAddress _ => .ipAddress
  | .counter32 _ => .counter32
  | .opaqueData _ => .opaqueData
  | .nsapAddress _ => .nsapAddress
  | .counter64 _ => .counter64
  | .uinteger32 _ => .uinteger32
  | .opaqueFloat _ => .opaqueFloat
  | .opaqueDouble _ => .opaqueDouble
  | .timeTicks _ => .timeTicks
  | .null => .null
  | .noSuchObject => .noSuchObject
  | .noSuchInstance => .noSuchInstance
  | .endOfMibView => .endOfMibView

/-- Result of a `ValidateValue` call. -/
inductive ValidateResult where
  /-- `nil` error: the value matches the type. -/
  | ok
  /-- The "type mismatch: ..." error, carrying the two compared tags. -/
  | mismatch (aTag bTag : Nat)
  /-- The Go code panics (the `panic("implement me")` placeholder). -/
  | panicked
  deriving DecidableEq, Repr

/-- Embedding of `assertSameType` (types file): compares two types by tag
alone. -/
def assertSameType (a b : SnmpType) : ValidateResult :=
  if a.Tag ≠ b.Tag then .mismatch a.Tag b.Tag else .ok

/-- Embedding of the `ValidateValue` methods.  Every type struct in the
types source delegates to `assertSameType(v.Type(), t)`, except `NullType`,
whose method body is `panic("implement me")`.  The methods of the time-ticks
and sentinel type structs are not among the provided sources and are
modelled from the spec ("fails with a type-mismatch condition when the
candidate's tag differs from the kind's own tag"). -/
def SnmpType.ValidateValue (t : SnmpType) (v : Value) : ValidateResult :=
  match t with
  | .null => .panicked
  | _ => assertSameType v.type t

/-! ## `decodeBERValue` dispatch (`value.go`) -/

/-- Embedding of `NewInteger` composed with the `int32 → int` conversion
used at the `tagInteger` dispatch site. -/
def NewInteger (i : Int) : Value := .integer i

/-- Embedding of `NewUInteger32`. -/
def NewUInteger32 (u : Nat) : Value := .uinteger32 u

/-- Embedding of `NewOctetString`. -/
def NewOctetString (bs : List Nat) : Value := .octetString bs

/-- Embedding of `NewObjectIdentifier`. -/
def NewObjectIdentifier (o : List Int) : Value := .objectIdentifier o

/-- Embedding of `NewIPAddress`. -/
def NewIPAddress (ip : List Nat) : Value := .ipAddress ip

/-- Embedding of `NewCounter32`. -/
def NewCounter32 (u : Nat) : Value := .counter32 u

/-- Embedding of `NewOpaque`. -/
def NewOpaque (bs : List Nat) : Value := .opaqueData bs

/-- Embedding of `NewCounter64`. -/
def NewCounter64 (u : Nat) : Value := .counter64 u

/-- Embedding of `NewTimeTicks`: wraps a `time.Duration` (an `int64` count
of nanoseconds). -/
def NewTimeTicks (duration : Int) : Value := .timeTicks duration

/-- Embedding of `NewTimeTicksFromHundredths` (`value.go`): the duration is
computed as `time.Duration(value) * 100 * time.Millisecond`, i.e.
`value * 100 * 10^6` nanoseconds in `int64` arithmetic. -/
def NewTimeTicksFromHundredths (value : Nat) : Value :=
  NewTimeTicks (wrapInt64 ((value : Int) * 100 * 1000000))

/-- Embedding of `decodeBERObjectIdentifier` (`value.go`): not implemented,
always errors. -/
def decodeBERObjectIdentifier (b : List Nat) : DecResult (List Int) :=
  .err .notImplemented b

/-- Embedding of `decodeBERIpAddress` (`value.go`): not implemented, always
errors. -/
def decodeBERIpAddress (b : List Nat) : DecResult (List Nat) :=
  .err .notImplemented b

/-- Embedding of `tryDecode` (`value.go`): run the decoder and wrap a
successful result with the value constructor. -/
def tryDecode {α : Type} (r : DecResult α) (valueConstr : α → Value) : DecResult Value :=
  match r with
  | .ok v o => .ok (valueConstr v) o
  | .err e o => .err e o
  | .panicked => .panicked

/-- Embedding of `decodeBERValue` (`value.go`): dispatch on the tag byte. -/
def decodeBERValue : List Nat → DecResult Value
  | [] => .err .noData []
  | b0 :: rest =>
    if b0 = tagInteger then
      tryDecode (decodeBERInt32 rest) (fun t => NewInteger t)
    else if b0 = tagUTnteger32 then
      tryDecode (decodeBERUInt32 rest) NewUInteger32
    else if b0 = tagOctetString then
      tryDecode (decodeBERBytes rest) NewOctetString
    else if b0 = tagObjectIdentifier then
      tryDecode (decodeBERObjectIdentifier rest) NewObjectIdentifier
    else if b0 = tagIpAddress then
      tryDecode (decodeBERIpAddress rest) NewIPAddress
    else if b0 = tagCounter32 then
      tryDecode (decodeBERUInt32 rest) NewCounter32
    else if b0 = tagGauge32 then
      tryDecode (decodeBERUInt32 rest) NewUInteger32
    else if b0 = tagTimeTicks then
      tryDecode (decodeBERUInt32 rest) NewTimeTicksFromHundredths
    else if b0 = tagOpaque then
      tryDecode (decodeBERBytes rest) NewOpaque
    else if b0 = tagCounter64 then
      tryDecode (decodeBERUInt64 rest) NewCounter64
    else if b0 = tagNull then .ok .null rest
    else if b0 = tagNoSuchObject then .ok .noSuchObject rest
    else if b0 = tagNoSuchInstance then .ok .noSuchInstance rest
    else if b0 = tagEndOfMibView then .ok .endOfMibView rest
    else .err (.unsupportedTag b0) (b0 :: rest)

/-! ## OID model (`oid.go`) -/

/-- Validation violations produced by `OID.Validate` (`oid.go`), one
constructor per `errors.New`/`fmt.Errorf` site. -/
inductive VErr where
  /-- "must have at least two sub-identifiers" -/
  | tooShort
  /-- "first sub-identifier must be 0, 1, or 2" -/
  | firstOutOfRange
  /-- "sub-identifier %d must be non-negative" -/
  | negative (i : Nat)
  /-- "sub-identifier %d must be less than or equal to 4294967295" -/
  | tooLarge (i : Nat)
  deriving DecidableEq, Repr

/-- The `switch` body of `OID.Validate`'s element loop: at most one
violation per element, first matching case wins. -/
def oidElemErr (i : Nat) (v : Int) : Option VErr :=
  if i = 0 ∧ v > 2 then some .firstOutOfRange
  else if v < 0 then some (.negative i)
  else if v > 4294967295 then some (.tooLarge i)
  else none

/-- Embedding of `OID.Validate` (`oid.go`).  Go returns `nil` exactly when
the returned list here is empty (`errors.Join` of no errors); a too-short
OID returns immediately with the single length violation. -/
def oidValidate (o : List Int) : List VErr :=
  if o.length < 2 then [.tooShort]
  else o.enum.filterMap (fun p => oidElemErr p.1 p.2)

/-- Embedding of `OID.IsValid` (`oid.go`). -/
def oidIsValid (o : List Int) : Bool :=
  oidValidate o = []

/-- Decimal digit character, used to embed `strconv.Itoa`. -/
def digitChar : Nat → Char
  | 0 => '0' | 1 => '1' | 2 => '2' | 3 => '3' | 4 => '4'
  | 5 => '5' | 6 => '6' | 7 => '7' | 8 => '8' | _ => '9'

/-- Fuel-indexed helper for `natToDigits`: structural recursion on the fuel
so that the definition reduces inside the kernel.  `natToDigits` always
supplies enough fuel. -/
def natToDigitsAux : Nat → Nat → List Char
  | 0, _ => []
  | f + 1, n =>
    if n < 10 then [digitChar n]
    else natToDigitsAux f (n / 10) ++ [digitChar (n % 10)]

/-- Decimal digits of a natural number, most significant first, no leading
zeros (`['0']` for zero) — the output of Go's `strconv.Itoa` on a
non-negative value. -/
def natToDigits (n : Nat) : List Char :=
  natToDigitsAux (n + 1) n

/-- Characters written by `strconv.Itoa` for a Go `int`. -/
def intToString (v : Int) : List Char :=
  if v < 0 then '-' :: natToDigits (-v).toNat else natToDigits v.toNat

/-- The `i > 0` iterations of the `OID.String` loop: a dot followed by the
decimal form of each remaining element. -/
def oidTailChars : List Int → List Char
  | [] => []
  | v :: rest => '.' :: intToString v ++ oidTailChars rest

/-- Embedding of `OID.String` (`oid.go`): dot-joined decimal elements, as a
character list. -/
def oidStringChars : List Int → List Char
  | [] => []
  | v :: rest => intToString v ++ oidTailChars rest

/-- Parse failures of `ParseOID` (`oid.go`). -/
inductive PErr where
  /-- "trailing dot at character index %d" -/
  | trailingDot
  /-- "consecutive dot at character index %d" -/
  | consecutiveDot
  /-- "invalid character at position %d" -/
  | invalidChar
  /-- The non-nil error returned by the final `oid.Validate()` call,
  carrying the violation list. -/
  | invalidOID (errs : List VErr)
  deriving DecidableEq, Repr

/-- The character loop of `ParseOID` (`oid.go`).  `prev` is `none` at
index 0 and otherwise holds `s[i-1]`; the `rest = []` test embeds the
`i == len(s)-1` trailing-dot check, and the digit branch accumulates
`v = v*10 + int(c-'0')` in Go `int` (64-bit, wrapping) arithmetic.  On
success it returns the accumulated elements and the final pending value. -/
def parseOIDLoop : List Char → Option Char → List Int → Int → Except PErr (List Int × Int)
  | [], _, oid, v => .ok (oid, v)
  | c :: rest, prev, oid, v =>
    if c = '.' then
      if rest = [] then .error .trailingDot
      else
        match prev with
        | none => parseOIDLoop rest (some c) oid v
        | some p =>
          if p = '.' then .error .consecutiveDot
          else parseOIDLoop rest (some c) (oid ++ [v]) 0
    else if '0' ≤ c ∧ c ≤ '9' then
      parseOIDLoop rest (some c) oid (wrapInt64 (v * 10 + ((c.toNat : Int) - 48)))
    else .error .invalidChar

/-- Embedding of `ParseOID` (`oid.go`).  Mirrors Go's two return values:
the first component is the returned `OID` slice (`none` for Go `nil`), the
second the returned error.  Note that after the loop Go always appends the
pending value and returns the slice together with `oid.Validate()`, so a
validation failure still returns the parsed sequence. -/
def parseOID (s : List Char) : Option (List Int) × Option PErr :=
  match parseOIDLoop s none [] 0 with
  | .error e => (none, some e)
  | .ok (oid, v) =>
    let oid := oid ++ [v]
    (some oid, if oidValidate oid = [] then none else some (.invalidOID (oidValidate oid)))

/-! ## Specification vocabulary

Two clearly-spec-side definitions used only to state properties: the
mathematical big-endian value of a byte sequence ("accumulate big-endian")
and plain decimal accumulation of digit characters. -/

/-- Big-endian value of a byte sequence, as the spec describes the integer
decoders' accumulation. -/
def specBigEndian (bs : List Nat) : Nat :=
  bs.foldl (fun acc b => acc * 256 + b) 0

/-- Decimal accumulation of digit characters starting from `acc`. -/
def digitsAcc (acc : Nat) (cs : List Char) : Nat :=
  cs.foldl (fun a c => a * 10 + (c.toNat - 48)) acc

/-! ## Helper lemmas -/

/-- A Go `int64` computation whose mathematical value fits in the positive
signed range does not wrap. -/
theorem wrapInt64_eq_self {x : Int} (h0 : 0 ≤ x) (h1 : x < 2 ^ 63) :
    wrapInt64 x = x := by
  unfold wrapInt64 toU64 sint64
  have hx : x % (2 ^ 64 : Int) = x := Int.emod_eq_of_lt h0 (by omega)
  rw [hx]
  have hlt : x.toNat < 2 ^ 63 := by omega
  simp only [if_pos hlt]
  omega

/-- `sint64` is the identity below `2^63`. -/
theorem sint64_of_lt {u : Nat} (h : u < 2 ^ 63) : sint64 u = (u : Int) := by
  unfold sint64
  rw [if_pos h]

/-- `sint64` subtracts `2^64` on the upper half of the unsigned range. -/
theorem sint64_of_ge {u : Nat} (h : 2 ^ 63 ≤ u) : sint64 u = (u : Int) - 2 ^ 64 := by
  unfold sint64
  rw [if_neg (by omega)]

/-! ## Claim C1 -/

/-- Claim C1 counterexample: on input `[0x80]` (first length byte `0x80`,
the indefinite form) `decodeBERLength` does not fail: it returns length `-1`
with a nil error. -/
theorem decodeBERLength_indefinite_cex :
    decodeBERLength [0x80] = .ok (-1) [] ∧
      (decodeBERLength [0x80]).isErr = false := by
  constructor <;> decide

/-- Claim C1 (amended): for every input byte slice whose first length byte
is `0x80`, `decodeBERLength` returns the indefinite marker `-1` with a nil
error (not a malformed-encoding error), consuming the single length byte. -/
theorem decodeBERLength_indefinite (rest : List Nat) :
    decodeBERLength (0x80 :: rest) = .ok (-1) rest := by
  simp [decodeBERLength]

/-! ## Claim C2 -/

/-- Claim C2: the BER value decoders are not total.  On the TLV
`[0x04, 0x80]` (octet-string tag with the indefinite length byte),
`decodeBERLength` hands length `-1` to `decodeBERBytes`, whose slice
expression `b[:length]` panics; `decodeBERUInt` and `decodeBERInt` panic the
same way on the bare length input `[0x80]` (at `b[length:]` and at the
negative shift `1 << (8*length-1)` respectively), so `decodeBERValue` itself
panics rather than returning a value or an error. -/
theorem decodeBERValue_panics_on_indefinite :
    decodeBERValue [0x04, 0x80] = .panicked
    ∧ decodeBERBytes [0x80] = .panicked
    ∧ decodeBERUInt [0x80] 4 = .panicked
    ∧ decodeBERInt [0x80] 4 = .panicked
    ∧ decodeBERValue [0x43, 0x80] = .panicked := by
  refine ⟨?_, ?_, ?_, ?_, ?_⟩ <;> decide

/-! ## Claim C3 -/

/-- Claim C3: wire tags are not unique across kinds.  The source's
`Counter32Type.Tag()` returns `int(tagIpAddress)` (`0x40`), so it collides
with `IPAddressType.Tag()` and differs from the registry constant
`tagCounter32 = 0x41`. -/
theorem counter32_tag_collision :
    SnmpType.counter32.Tag = 0x40
    ∧ SnmpType.ipAddress.Tag = 0x40
    ∧ SnmpType.counter32.Tag = SnmpType.ipAddress.Tag
    ∧ SnmpType.counter32.Tag ≠ tagCounter32 := by
  refine ⟨?_, ?_, ?_, ?_⟩ <;> decide

/-! ## Claim C4 -/

/-- Claim C4: decoding a time-ticks TLV scales the decoded unsigned integer
by `100 * time.Millisecond`, i.e. the stored duration is `n * 100ms`
(`n * 10^8` nanoseconds) — ten times the `n * 10ms` that "hundredths of a
second" requires.  Concretely, the TLV `[0x43, 0x01, 0x01]` (time-ticks,
value 1) decodes to a duration of `10^8` nanoseconds (100ms), not `10^7`
nanoseconds (10ms). -/
theorem timeTicks_decode_scale (n : Nat) (h : n < 2 ^ 32) :
    NewTimeTicksFromHundredths n = .timeTicks ((n : Int) * 100000000)
    ∧ decodeBERValue [0x43, 0x01, 0x01] = .ok (.timeTicks 100000000) []
    ∧ (100000000 : Int) ≠ 10 * 1000000 := by
  refine ⟨?_, by decide, by decide⟩
  unfold NewTimeTicksFromHundredths NewTimeTicks
  rw [show (n : Int) * 100 * 1000000 = (n : Int) * 100000000 by ring]
  rw [wrapInt64_eq_self (by positivity) (by calc
        (n : Int) * 100000000 < 2 ^ 32 * 100000000 := by
          exact mul_lt_mul_of_pos_right (by exact_mod_cast h) (by norm_num)
        _ < 2 ^ 63 := by norm_num)]

/-- Witness for C4 at `n = 1`. -/
theorem timeTicks_decode_scale_witness :
    NewTimeTicksFromHundredths 1 = .timeTicks 100000000 := by
  simpa using (timeTicks_decode_scale 1 (by decide)).1

/-! ## Claim C7 -/

/-- Claim C7: a long-form length whose big-endian value overflows `int64`
is rejected only when the wrapped value is negative.  The nine-byte length
encoding `[0x89, 0x01, 0x00 × 8]` encodes `2^64`, which wraps to `0`; the
code returns length `0` with a nil error instead of failing.  (A wrap to a
negative value, as in the eight-byte `0xFF...FF01` encoding, is caught.) -/
theorem decodeBERLength_overflow_wraps :
    decodeBERLength [0x89, 0x01, 0, 0, 0, 0, 0, 0, 0, 0] = .ok 0 []
    ∧ (decodeBERLength [0x89, 0x01, 0, 0, 0, 0, 0, 0, 0, 0]).isErr = false
    ∧ decodeBERLength [0x88, 0xFF, 0xFF, 0xFF, 0xFF, 0xFF, 0xFF, 0xFF, 0x01] =
        .err .negLengthOverflow [0x88, 0xFF, 0xFF, 0xFF, 0xFF, 0xFF, 0xFF, 0xFF, 0x01] := by
  refine ⟨?_, ?_, ?_⟩ <;> decide

/-! ## Claim C10 -/

/-- Claim C10: `NullType.ValidateValue` does not compare tags — its body is
`panic("implement me")`, so validating even a matching null value (equal
tags) panics instead of returning nil. -/
theorem nullType_validateValue_panics :
    SnmpType.null.ValidateValue .null = .panicked
    ∧ (Value.null.type).Tag = SnmpType.null.Tag
    ∧ assertSameType Value.null.type SnmpType.null = .ok := by
  refine ⟨?_, ?_, ?_⟩ <;> decide

/-! ## Claim C5 -/

/-- The element-loop switch never produces the length violation. -/
theorem oidElemErr_ne_tooShort (i : Nat) (v : Int) :
    oidElemErr i v ≠ some .tooShort := by
  unfold oidElemErr
  split_ifs <;> simp

/-- Characterization of the `firstOutOfRange` output of the switch. -/
theorem oidElemErr_eq_firstOutOfRange {i : Nat} {v : Int} :
    oidElemErr i v = some .firstOutOfRange ↔ i = 0 ∧ v > 2 := by
  unfold oidElemErr
  split_ifs with h1 h2 h3 <;> simp_all

/-- Characterization of the `negative` output of the switch. -/
theorem oidElemErr_eq_negative {i j : Nat} {v : Int} :
    oidElemErr j v = some (.negative i) ↔ j = i ∧ v < 0 := by
  unfold oidElemErr
  split_ifs with h1 h2 h3 <;> simp_all <;> omega

/-- Characterization of the `tooLarge` output of the switch. -/
theorem oidElemErr_eq_tooLarge {i j : Nat} {v : Int} :
    oidElemErr j v = some (.tooLarge i) ↔ j = i ∧ j ≠ 0 ∧ v > 4294967295 := by
  unfold oidElemErr
  split_ifs with h1 h2 h3 <;> simp_all <;> omega

/-- Claim C5 counterexample: `Validate` does not report all violations.
The one-element identifier `[5]` is both too short and has a first element
outside `{0, 1, 2}`, yet only the length violation is reported; the
identifier `[2^33, 1]` has a first element that is both outside `{0, 1, 2}`
and above `2^32 - 1`, yet only the first-element violation is reported. -/
theorem oidValidate_single_violation_cex :
    oidValidate [5] = [.tooShort]
    ∧ oidValidate [8589934592, 1] = [.firstOutOfRange] := by
  constructor <;> decide

/-- Claim C5 (amended): for identifiers shorter than two elements,
`Validate` reports only the too-short violation (element checks are
skipped); otherwise it collects exactly one violation per offending element
across the whole sequence, with the first matching check winning per
element: a first element greater than 2 is reported as the first-element
violation (even when it also exceeds `2^32 - 1`), a negative element is
reported as negative, and a non-first element above `2^32 - 1` as too
large. -/
theorem oidValidate_spec (o : List Int) :
    (o.length < 2 → oidValidate o = [.tooShort])
    ∧ (2 ≤ o.length →
        VErr.tooShort ∉ oidValidate o
        ∧ (VErr.firstOutOfRange ∈ oidValidate o ↔ ∃ v, o[0]? = some v ∧ v > 2)
        ∧ (∀ i, VErr.negative i ∈ oidValidate o ↔ ∃ v, o[i]? = some v ∧ v < 0)
        ∧ (∀ i, VErr.tooLarge i ∈ oidValidate o ↔
            i ≠ 0 ∧ ∃ v, o[i]? = some v ∧ v > 4294967295)) := by
  constructor
  · intro h
    unfold oidValidate
    rw [if_pos h]
  · intro h
    have hlen : ¬ o.length < 2 := by omega
    unfold oidValidate
    rw [if_neg hlen]
    refine ⟨?_, ?_, ?_, ?_⟩
    · intro hmem
      obtain ⟨p, _, hp⟩ := List.mem_filterMap.mp hmem
      exact oidElemErr_ne_tooShort p.1 p.2 hp
    · constructor
      · intro hmem
        obtain ⟨p, hpm, hp⟩ := List.mem_filterMap.mp hmem
        obtain ⟨h0, hv⟩ := oidElemErr_eq_firstOutOfRange.mp hp
        refine ⟨p.2, ?_, hv⟩
        have := List.mem_enum_iff_getElem?.mp hpm
        rwa [h0] at this
      · rintro ⟨v, hv, h2⟩
        exact List.mem_filterMap.mpr
          ⟨(0, v), List.mk_mem_enum_iff_getElem?.mpr hv,
            oidElemErr_eq_firstOutOfRange.mpr ⟨rfl, h2⟩⟩
    · intro i
      constructor
      · intro hmem
        obtain ⟨p, hpm, hp⟩ := List.mem_filterMap.mp hmem
        obtain ⟨h0, hv⟩ := oidElemErr_eq_negative.mp hp
        refine ⟨p.2, ?_, hv⟩
        have := List.mem_enum_iff_getElem?.mp hpm
        rwa [h0] at this
      · rintro ⟨v, hv, h2⟩
        exact List.mem_filterMap.mpr
          ⟨(i, v), List.mk_mem_enum_iff_getElem?.mpr hv,
            oidElemErr_eq_negative.mpr ⟨rfl, h2⟩⟩
    · intro i
      constructor
      · intro hmem
        obtain ⟨p, hpm, hp⟩ := List.mem_filterMap.mp hmem
        obtain ⟨h0, hi, hv⟩ := oidElemErr_eq_tooLarge.mp hp
        refine ⟨h0 ▸ hi, p.2, ?_, hv⟩
        have := List.mem_enum_iff_getElem?.mp hpm
        rwa [h0] at this
      · rintro ⟨hi, v, hv, h2⟩
        exact List.mem_filterMap.mpr
          ⟨(i, v), List.mk_mem_enum_iff_getElem?.mpr hv,
            oidElemErr_eq_tooLarge.mpr ⟨rfl, hi, h2⟩⟩

/-- Witness for C5 at the identifier `[5, -1, 2^32]`: the negative second
element is reported even though the first element already carries a
violation. -/
theorem oidValidate_spec_witness :
    VErr.negative 1 ∈ oidValidate [5, -1, 4294967296] := by
  exact (((oidValidate_spec [5, -1, 4294967296]).2 (by decide)).2.2.1 1).mpr
    ⟨-1, by decide, by decide⟩

/-! ## Claim C9 -/

/-- Claim C9 counterexample: `ParseOID("1")` fails (single-element result)
but does not return "no identifier": the parsed slice `{1}` is returned
alongside the validation error. -/
theorem parseOID_returns_oid_cex :
    parseOID "1".data = (some [1], some (.invalidOID [.tooShort]))
    ∧ (parseOID "1".data).1 ≠ none := by
  constructor <;> decide

/-- Claim C9 (amended): `ParseOID` implements the stated grammar with the
stated outcomes on every listed input, except that only the grammar-level
failures (trailing dot, consecutive dots, invalid character) return a nil
identifier; inputs that fail only the final validation (empty input,
single-element result, first element outside `{0,1,2}`, element above
`2^32 - 1`) return the parsed sequence together with the error. -/
theorem parseOID_examples :
    parseOID "1.3.6.1.2.1".data = (some [1, 3, 6, 1, 2, 1], none)
    ∧ parseOID ".1.3".data = (some [1, 3], none)
    ∧ parseOID "1.3.6.1.2.1.".data = (none, some .trailingDot)
    ∧ parseOID "".data = (some [0], some (.invalidOID [.tooShort]))
    ∧ parseOID "1".data = (some [1], some (.invalidOID [.tooShort]))
    ∧ parseOID "1..3".data = (none, some .consecutiveDot)
    ∧ parseOID "1.-3".data = (none, some .invalidChar)
    ∧ parseOID "1.4294967296".data =
        (some [1, 4294967296], some (.invalidOID [.tooLarge 1]))
    ∧ parseOID "3.1.2".data = (some [3, 1, 2], some (.invalidOID [.firstOutOfRange])) := by
  refine ⟨?_, ?_, ?_, ?_, ?_, ?_, ?_, ?_, ?_⟩ <;> decide

/-! ## Claim C6: helper lemmas about big-endian accumulation -/

/-- Folding the pure accumulation step from `acc` scales `acc` by
`2^(8·len)` and adds the big-endian value. -/
theorem specBigEndian_foldl (bs : List Nat) :
    ∀ acc : Nat,
      bs.foldl (fun a b => a * 256 + b) acc = acc * 2 ^ (8 * bs.length) + specBigEndian bs := by
  induction bs with
  | nil => intro acc; simp [specBigEndian]
  | cons c t ih =>
    intro acc
    have hc : specBigEndian (c :: t) = c * 2 ^ (8 * t.length) + specBigEndian t := by
      unfold specBigEndian
      simp only [List.foldl_cons, Nat.zero_mul, Nat.zero_add]
      exact ih c
    simp only [List.foldl_cons, List.length_cons]
    rw [ih (acc * 256 + c), hc,
      show 8 * (t.length + 1) = 8 * t.length + 8 by ring, pow_add]
    ring

/-- Head decomposition of the big-endian value. -/
theorem specBigEndian_cons (c : Nat) (t : List Nat) :
    specBigEndian (c :: t) = c * 2 ^ (8 * t.length) + specBigEndian t := by
  unfold specBigEndian
  simp only [List.foldl_cons, Nat.zero_mul, Nat.zero_add]
  exact specBigEndian_foldl t c

/-- The big-endian value of a byte list fits in `8·len` bits. -/
theorem specBigEndian_lt (bs : List Nat) (hb : ∀ x ∈ bs, x < 256) :
    specBigEndian bs < 2 ^ (8 * bs.length) := by
  induction bs with
  | nil => simp [specBigEndian]
  | cons c t ih =>
    have hc : c < 256 := hb c (List.mem_cons_self c t)
    have ht := ih (fun x hx => hb x (List.mem_cons_of_mem _ hx))
    rw [specBigEndian_cons, List.length_cons,
      show 8 * (t.length + 1) = 8 * t.length + 8 by ring, pow_add]
    calc c * 2 ^ (8 * t.length) + specBigEndian t
        < c * 2 ^ (8 * t.length) + 2 ^ (8 * t.length) := by omega
      _ = (c + 1) * 2 ^ (8 * t.length) := by ring
      _ ≤ 256 * 2 ^ (8 * t.length) := Nat.mul_le_mul_right _ (by omega)
      _ = 2 ^ (8 * t.length) * 2 ^ 8 := by ring

/-- The modular accumulation loop of the decoders agrees with pure
accumulation while the result is guaranteed to fit in 64 bits. -/
theorem foldMod_eq_foldl :
    ∀ (bs : List Nat) (acc : Nat), (∀ x ∈ bs, x < 256) →
      (acc + 1) * 2 ^ (8 * bs.length) ≤ 2 ^ 64 →
      bs.foldl (fun a x => (a * 256 + x) % 2 ^ 64) acc =
        bs.foldl (fun a x => a * 256 + x) acc
  | [], acc, _, _ => rfl
  | x :: t, acc, hb, h => by
    simp only [List.foldl_cons]
    have hx : x < 256 := hb x (List.mem_cons_self x t)
    have hpow : (acc + 1) * 2 ^ (8 * (x :: t).length) =
        (acc + 1) * 256 * 2 ^ (8 * t.length) := by
      rw [List.length_cons, show 8 * (t.length + 1) = 8 * t.length + 8 by ring, pow_add]
      ring
    have hstep : (acc * 256 + x + 1) * 2 ^ (8 * t.length) ≤ 2 ^ 64 := by
      calc (acc * 256 + x + 1) * 2 ^ (8 * t.length)
          ≤ (acc + 1) * 256 * 2 ^ (8 * t.length) :=
            Nat.mul_le_mul_right _ (by omega)
        _ ≤ 2 ^ 64 := by rw [← hpow]; exact h
    have hlt : acc * 256 + x < 2 ^ 64 := by
      have h1 : 1 * 1 ≤ 1 * 2 ^ (8 * t.length) :=
        Nat.mul_le_mul_left _ Nat.one_le_two_pow
      nlinarith [hstep]
    rw [Nat.mod_eq_of_lt hlt]
    exact foldMod_eq_foldl t (acc * 256 + x)
      (fun y hy => hb y (List.mem_cons_of_mem _ hy)) hstep

/-- The decoders' modular accumulation from zero computes exactly the
big-endian value for up to eight bytes. -/
theorem foldMod_eq_specBigEndian (bs : List Nat) (hb : ∀ x ∈ bs, x < 256)
    (hlen : bs.length ≤ 8) :
    bs.foldl (fun acc byte => (acc * 256 + byte) % 2 ^ 64) 0 = specBigEndian bs := by
  rw [foldMod_eq_foldl bs 0 hb
    (by simpa using Nat.pow_le_pow_right (by norm_num) (by omega : 8 * bs.length ≤ 64))]
  rfl

/-- For a value known to fit in `j+1` bits, bit `j` is set exactly when the
value reaches `2^j`. -/
theorem testBit_eq_decide_le {u j : Nat} (h : u < 2 ^ (j + 1)) :
    u.testBit j = decide (2 ^ j ≤ u) := by
  rw [Nat.testBit_to_div_mod]
  have hq : u / 2 ^ j < 2 := by
    apply Nat.div_lt_of_lt_mul
    rw [pow_succ] at h
    omega
  have hdiv : 1 ≤ u / 2 ^ j ↔ 2 ^ j ≤ u := by
    rw [Nat.le_div_iff_mul_le (Nat.two_pow_pos j), one_mul]
  have hmod : u / 2 ^ j % 2 = u / 2 ^ j := Nat.mod_eq_of_lt hq
  simp only [decide_eq_decide]
  rw [hmod]
  omega

/-- The most significant bit of a byte list's big-endian value is set
exactly when the first byte is at least `0x80`. -/
theorem specBigEndian_msb (c : Nat) (t : List Nat) (hc : c < 256)
    (ht : ∀ x ∈ t, x < 256) :
    2 ^ (8 * (c :: t).length - 1) ≤ specBigEndian (c :: t) ↔ 128 ≤ c := by
  have hP := specBigEndian_lt t ht
  rw [specBigEndian_cons, List.length_cons,
    show 8 * (t.length + 1) - 1 = 8 * t.length + 7 by omega, pow_add]
  constructor
  · intro h
    by_contra hlt
    push_neg at hlt
    have h1 : c * 2 ^ (8 * t.length) + specBigEndian t < 128 * 2 ^ (8 * t.length) := by
      calc c * 2 ^ (8 * t.length) + specBigEndian t
          < c * 2 ^ (8 * t.length) + 2 ^ (8 * t.length) := by omega
        _ = (c + 1) * 2 ^ (8 * t.length) := by ring
        _ ≤ 128 * 2 ^ (8 * t.length) := Nat.mul_le_mul_right _ (by omega)
    have h2 : 2 ^ (8 * t.length) * 2 ^ 7 = 128 * 2 ^ (8 * t.length) := by ring
    omega
  · intro h
    have h1 : 128 * 2 ^ (8 * t.length) ≤ c * 2 ^ (8 * t.length) :=
      Nat.mul_le_mul_right _ h
    have h2 : 2 ^ (8 * t.length) * 2 ^ 7 = 128 * 2 ^ (8 * t.length) := by ring
    omega

/-- Disjoint-range bitwise or is addition: filling the bits above `8·k` of
a value below `2^(8·k)`. -/
theorem lor_high_bits {u k : Nat} (hk : k ≤ 7) (hu : u < 2 ^ (8 * k)) :
    u ||| (2 ^ 64 - 2 ^ (8 * k)) = u + (2 ^ 64 - 2 ^ (8 * k)) := by
  have h1 : (2 : Nat) ^ (8 * k) * 2 ^ (64 - 8 * k) = 2 ^ 64 := by
    rw [← pow_add]
    congr 1
    omega
  have h2 : (1 : Nat) ≤ 2 ^ (64 - 8 * k) := Nat.one_le_two_pow
  have hAle : (2 : Nat) ^ (8 * k) ≤ 2 ^ 64 :=
    Nat.pow_le_pow_right (by norm_num) (by omega)
  have hsplit : (2 : Nat) ^ 64 - 2 ^ (8 * k) = 2 ^ (8 * k) * (2 ^ (64 - 8 * k) - 1) := by
    have h1i : ((2 : Int) ^ (8 * k)) * 2 ^ (64 - 8 * k) = 2 ^ 64 := by exact_mod_cast h1
    zify [hAle, h2]
    linear_combination - h1i
  rw [hsplit, Nat.lor_comm, ← Nat.mul_add_lt_is_or hu (2 ^ (64 - 8 * k) - 1)]
  omega

/-- The sign-test mask `1 << (8*length - 1)` is the plain power of two for
the byte counts the decoder accepts. -/
theorem signTest_mask {k : Nat} (hk1 : 1 ≤ k) (hk : k ≤ 8) :
    ((1 <<< (8 * k - 1)) % 2 ^ 64 : Nat) = 2 ^ (8 * k - 1) := by
  rw [Nat.shiftLeft_eq, one_mul, Nat.mod_eq_of_lt]
  exact Nat.pow_lt_pow_right (by norm_num) (by omega)

/-- The sign-extension mask `-1 << (8*length)` as a 64-bit pattern, for
byte counts up to seven. -/
theorem extend_mask_lt {k : Nat} (hk : k ≤ 7) :
    (((2 ^ 64 - 1) <<< (8 * k)) % 2 ^ 64 : Nat) = 2 ^ 64 - 2 ^ (8 * k) := by
  rw [Nat.shiftLeft_eq]
  have hA1 : (1 : Nat) ≤ 2 ^ (8 * k) := Nat.one_le_two_pow
  have hAle : (2 : Nat) ^ (8 * k) ≤ 2 ^ 64 :=
    Nat.pow_le_pow_right (by norm_num) (by omega)
  have heq : ((2 : Nat) ^ 64 - 1) * 2 ^ (8 * k) =
      2 ^ 64 * (2 ^ (8 * k) - 1) + (2 ^ 64 - 2 ^ (8 * k)) := by
    zify [hA1, hAle, (by norm_num : (1 : Nat) ≤ 2 ^ 64)]
    ring
  rw [heq, Nat.mul_add_mod, Nat.mod_eq_of_lt (by omega)]

/-- For eight bytes the sign-extension mask shifts out entirely. -/
theorem extend_mask_eight :
    (((2 ^ 64 - 1) <<< (8 * 8)) % 2 ^ 64 : Nat) = 0 := by decide

/-- `decodeBERInt` after a successful length decode: the error checks and
the accumulation/sign-extension expression, spelled out. -/
theorem decodeBERInt_after_length (s len : Int) (b tail : List Nat)
    (h : decodeBERLength b = .ok len tail) :
    decodeBERInt b s =
      (if len = 0 then .err .zeroLengthInt tail
       else if len > s then .err .intTooLarge tail
       else if len > (tail.length : Int) then .err .truncatedInt tail
       else if len < 0 then .panicked
       else
         .ok (sint64
           (if ((tail.take len.toNat).foldl
                  (fun acc byte => (acc * 256 + byte) % 2 ^ 64) 0) &&&
                ((1 <<< (8 * len.toNat - 1)) % 2 ^ 64) ≠ 0 then
              ((tail.take len.toNat).foldl
                  (fun acc byte => (acc * 256 + byte) % 2 ^ 64) 0) |||
                (((2 ^ 64 - 1) <<< (8 * len.toNat)) % 2 ^ 64)
            else
              ((tail.take len.toNat).foldl
                  (fun acc byte => (acc * 256 + byte) % 2 ^ 64) 0)))
           (tail.drop len.toNat)) := by
  unfold decodeBERInt
  rw [h]

/-- The accepting path of `decodeBERInt`: big-endian accumulation with sign
extension exactly when the first consumed byte has its high bit set. -/
theorem decodeBERInt_ok_value (s : Int) (k : Nat) (b tail : List Nat)
    (hlen : decodeBERLength b = .ok (k : Int) tail)
    (hb : ∀ x ∈ tail, x < 256)
    (hk1 : 0 < k) (hks : (k : Int) ≤ s) (hs8 : s ≤ 8) (hkt : k ≤ tail.length) :
    decodeBERInt b s =
      .ok (if 128 ≤ tail.headI
            then (specBigEndian (tail.take k) : Int) - 2 ^ (8 * k)
            else (specBigEndian (tail.take k) : Int))
        (tail.drop k) := by
  have hk8 : k ≤ 8 := by omega
  rw [decodeBERInt_after_length s (k : Int) b tail hlen]
  rw [if_neg (by omega : ¬ ((k : Int) = 0)), if_neg (by omega : ¬ ((k : Int) > s)),
    if_neg (by omega : ¬ ((k : Int) > (tail.length : Int))),
    if_neg (by omega : ¬ ((k : Int) < 0))]
  have htoNat : ((k : Int)).toNat = k := by omega
  rw [htoNat]
  have htklen : (tail.take k).length = k := by
    rw [List.length_take]; omega
  have htb : ∀ x ∈ tail.take k, x < 256 := fun x hx => hb x (List.take_subset k tail hx)
  have hfold := foldMod_eq_specBigEndian (tail.take k) htb (by omega)
  rw [hfold]
  obtain ⟨c, t', rfl⟩ : ∃ c t', tail = c :: t' := by
    cases tail with
    | nil => simp at hkt; omega
    | cons c t' => exact ⟨c, t', rfl⟩
  obtain ⟨k', rfl⟩ : ∃ k', k = k' + 1 := ⟨k - 1, by omega⟩
  have hc : c < 256 := hb c (List.mem_cons_self c t')
  have ht' : ∀ x ∈ t'.take k', x < 256 := fun x hx =>
    hb x (List.mem_cons_of_mem c (List.take_subset k' t' hx))
  have htake : (c :: t').take (k' + 1) = c :: t'.take k' := List.take_succ_cons
  have hlen' : (c :: t'.take k').length = k' + 1 := by
    simp only [List.length_cons, List.length_take]
    simp only [List.length_cons] at hkt
    omega
  have hmsb := specBigEndian_msb c (t'.take k') hc ht'
  rw [hlen'] at hmsb
  have hVlt : specBigEndian ((c :: t').take (k' + 1)) < 2 ^ (8 * (k' + 1)) := by
    have := specBigEndian_lt ((c :: t').take (k' + 1)) htb
    rwa [htklen] at this
  rw [htake] at hVlt ⊢
  have hVlt' : specBigEndian (c :: t'.take k') < 2 ^ ((8 * (k' + 1) - 1) + 1) := by
    have h8 : (8 * (k' + 1) - 1) + 1 = 8 * (k' + 1) := by omega
    rwa [h8]
  have hdec : decide (2 ^ (8 * (k' + 1) - 1) ≤ specBigEndian (c :: t'.take k')) =
      decide (128 ≤ c) := decide_eq_decide.mpr hmsb
  have htest : specBigEndian (c :: t'.take k') &&& ((1 <<< (8 * (k' + 1) - 1)) % 2 ^ 64) =
      (if 128 ≤ c then 2 ^ (8 * (k' + 1) - 1) else 0) := by
    rw [signTest_mask (by omega) hk8, Nat.and_two_pow, testBit_eq_decide_le hVlt', hdec]
    by_cases h128 : 128 ≤ c
    · simp [h128]
    · simp [h128]
  rw [htest]
  simp only [List.headI_cons]
  by_cases h128 : 128 ≤ c
  · have hcond : (if 128 ≤ c then 2 ^ (8 * (k' + 1) - 1) else 0) ≠ 0 := by
      rw [if_pos h128]
      exact (Nat.two_pow_pos _).ne'
    rw [if_pos hcond, if_pos h128]
    have hVge : 2 ^ (8 * (k' + 1) - 1) ≤ specBigEndian (c :: t'.take k') := hmsb.mpr h128
    by_cases hk7 : k' + 1 ≤ 7
    · rw [extend_mask_lt hk7, lor_high_bits hk7 hVlt]
      have h2k56 : (2 : Nat) ^ (8 * (k' + 1)) ≤ 2 ^ 56 :=
        Nat.pow_le_pow_right (by norm_num) (by omega)
      have h5663 : (2 : Nat) ^ 63 ≤ 2 ^ 64 - 2 ^ 56 := by norm_num
      have hge : 2 ^ 63 ≤ specBigEndian (c :: t'.take k') + (2 ^ 64 - 2 ^ (8 * (k' + 1))) := by
        omega
      rw [sint64_of_ge hge]
      have h2k64 : (2 : Nat) ^ (8 * (k' + 1)) ≤ 2 ^ 64 :=
        Nat.pow_le_pow_right (by norm_num) (by omega)
      congr 1
      rw [Nat.cast_add, Nat.cast_sub h2k64]
      push_cast
      ring
    · have hk'7 : k' = 7 := by omega
      subst hk'7
      have hmask : (((2 ^ 64 - 1) <<< (8 * (7 + 1))) % 2 ^ 64 : Nat) = 0 := by
        decide
      rw [hmask, Nat.or_zero]
      have hge : 2 ^ 63 ≤ specBigEndian (c :: t'.take 7) := by
        have h63 : 8 * (7 + 1) - 1 = 63 := by norm_num
        rwa [h63] at hVge
      rw [sint64_of_ge hge]
  · rw [if_neg (by simp [h128] : ¬ ((if 128 ≤ c then 2 ^ (8 * (k' + 1) - 1) else 0) ≠ 0)),
      if_neg h128]
    have hVleTop : specBigEndian (c :: t'.take k') < 2 ^ 63 := by
      have hlt : specBigEndian (c :: t'.take k') < 2 ^ (8 * (k' + 1) - 1) := by
        by_contra hcon
        push_neg at hcon
        exact h128 (hmsb.mp hcon)
      have hle : (2 : Nat) ^ (8 * (k' + 1) - 1) ≤ 2 ^ 63 :=
        Nat.pow_le_pow_right (by norm_num) (by omega)
      omega
    rw [sint64_of_lt hVleTop]

/-- Claim C6: signed BER integer decode with byte-size `s`: after the
length field decodes to `k`, the decoder rejects `k = 0`, rejects `k > s`,
rejects `k` exceeding the remaining input, and otherwise accumulates the
`k` payload bytes big-endian, sign-extending (subtracting `2^(8k)`) exactly
when the most significant bit of the first consumed byte is set; in
particular `[0x01, 0xFF]` decodes to `-1` and `[0x01, 0x7F]` to `127`. -/
theorem decodeBERInt_spec (b tail : List Nat) (s : Int) (k : Nat)
    (hlen : decodeBERLength b = .ok (k : Int) tail)
    (hb : ∀ x ∈ tail, x < 256) :
    (k = 0 → decodeBERInt b s = .err .zeroLengthInt tail)
    ∧ (0 < k → s < (k : Int) → decodeBERInt b s = .err .intTooLarge tail)
    ∧ (0 < k → (k : Int) ≤ s → tail.length < k →
        decodeBERInt b s = .err .truncatedInt tail)
    ∧ (0 < k → (k : Int) ≤ s → s ≤ 8 → k ≤ tail.length →
        decodeBERInt b s =
          .ok (if 128 ≤ tail.headI
                then (specBigEndian (tail.take k) : Int) - 2 ^ (8 * k)
                else (specBigEndian (tail.take k) : Int))
            (tail.drop k))
    ∧ decodeBERInt [0x01, 0xFF] 4 = .ok (-1) []
    ∧ decodeBERInt [0x01, 0x7F] 4 = .ok 127 [] := by
  refine ⟨?_, ?_, ?_, ?_, by decide, by decide⟩
  · intro h0
    subst h0
    rw [decodeBERInt_after_length s _ b tail hlen]
    simp
  · intro hk hs
    rw [decodeBERInt_after_length s _ b tail hlen]
    rw [if_neg (by omega : ¬ ((k : Int) = 0)), if_pos (by omega : (k : Int) > s)]
  · intro hk hs ht
    rw [decodeBERInt_after_length s _ b tail hlen]
    rw [if_neg (by omega : ¬ ((k : Int) = 0)), if_neg (by omega : ¬ ((k : Int) > s)),
      if_pos (by omega : (k : Int) > (tail.length : Int))]
  · intro h1 h2 h3 h4
    exact decodeBERInt_ok_value s k b tail hlen hb h1 h2 h3 h4

/-- Witness for C6 at the two-byte input `[0x01, 0xFF]` with size 4: the
accepting branch applies and yields the sign-extended value `-1`. -/
theorem decodeBERInt_spec_witness :
    decodeBERInt [0x01, 0xFF] 4 = .ok (-1) [] := by
  have h := (decodeBERInt_spec [0x01, 0xFF] [0xFF] 4 1 (by decide) (by decide)).2.2.2.1
    (by decide) (by decide) (by decide) (by decide)
  exact h.trans (by decide)

/-! ## Claim C8: helper lemmas about decimal digits and the parse loop -/

/-- Digit characters decode to their numeric codepoint. -/
theorem digitChar_toNat {d : Nat} (h : d < 10) : (digitChar d).toNat = 48 + d := by
  interval_cases d <;> rfl

/-- Digit characters lie in the `'0'..'9'` range. -/
theorem digitChar_isDigit {d : Nat} (h : d < 10) :
    '0' ≤ digitChar d ∧ digitChar d ≤ '9' := by
  interval_cases d <;> exact ⟨by decide, by decide⟩

/-- A character at least `'0'` is not the dot. -/
theorem digit_ne_dot {c : Char} (h : '0' ≤ c) : ¬ (c = '.') := by
  intro hc
  subst hc
  revert h
  decide

/-- Numeric bounds of a digit character's codepoint. -/
theorem char_digit_toNat {c : Char} (h1 : '0' ≤ c) (h2 : c ≤ '9') :
    48 ≤ c.toNat ∧ c.toNat ≤ 57 := by
  rw [Char.le_def, UInt32.le_def, BitVec.le_def] at h1 h2
  exact ⟨h1, h2⟩

/-- The fuel argument of `natToDigitsAux` is irrelevant once sufficient. -/
theorem natToDigitsAux_congr : ∀ (f g n : Nat), n < f → n < g →
    natToDigitsAux f n = natToDigitsAux g n
  | 0, _, _, hf, _ => absurd hf (by omega)
  | _ + 1, 0, _, _, hg => absurd hg (by omega)
  | f + 1, g + 1, n, hf, hg => by
    simp only [natToDigitsAux]
    by_cases h : n < 10
    · simp [h]
    · simp only [if_neg h]
      rw [natToDigitsAux_congr f g (n / 10) (by omega) (by omega)]

/-- Recursion equation for `natToDigits`. -/
theorem natToDigits_eq (n : Nat) :
    natToDigits n =
      if n < 10 then [digitChar n]
      else natToDigits (n / 10) ++ [digitChar (n % 10)] := by
  by_cases h : n < 10
  · rw [if_pos h]
    unfold natToDigits
    simp only [natToDigitsAux]
    rw [if_pos h]
  · rw [if_neg h]
    have hstep : natToDigits n = natToDigitsAux n (n / 10) ++ [digitChar (n % 10)] := by
      unfold natToDigits
      simp only [natToDigitsAux]
      rw [if_neg h]
    rw [hstep]
    congr 1
    exact natToDigitsAux_congr n (n / 10 + 1) (n / 10) (by omega) (by omega)

/-- `natToDigits` never returns the empty list. -/
theorem natToDigits_ne_nil (n : Nat) : natToDigits n ≠ [] := by
  rw [natToDigits_eq]
  split_ifs <;> simp

/-- All characters produced by `natToDigits` are decimal digits. -/
theorem natToDigits_digits (n : Nat) : ∀ c ∈ natToDigits n, '0' ≤ c ∧ c ≤ '9' := by
  induction n using Nat.strong_induction_on with
  | _ n ih =>
    rw [natToDigits_eq]
    by_cases h : n < 10
    · simp only [if_pos h, List.mem_singleton]
      rintro c rfl
      exact digitChar_isDigit h
    · simp only [if_neg h]
      intro c hc
      rcases List.mem_append.mp hc with h1 | h1
      · exact ih (n / 10) (by omega) c h1
      · rw [List.mem_singleton] at h1
        subst h1
        exact digitChar_isDigit (Nat.mod_lt _ (by omega))

/-- Decimal accumulation inverts `natToDigits`. -/
theorem digitsAcc_natToDigits (n : Nat) : digitsAcc 0 (natToDigits n) = n := by
  induction n using Nat.strong_induction_on with
  | _ n ih =>
    rw [natToDigits_eq]
    by_cases h : n < 10
    · simp only [if_pos h]
      unfold digitsAcc
      simp [digitChar_toNat h]
    · simp only [if_neg h]
      unfold digitsAcc
      rw [List.foldl_append]
      have hrec := ih (n / 10) (by omega)
      unfold digitsAcc at hrec
      rw [hrec]
      simp only [List.foldl_cons, List.foldl_nil]
      rw [digitChar_toNat (Nat.mod_lt _ (by omega))]
      omega

/-- Decimal accumulation never decreases the accumulator. -/
theorem digitsAcc_le (cs : List Char) : ∀ v : Nat, v ≤ digitsAcc v cs := by
  induction cs with
  | nil => intro v; exact le_refl v
  | cons c t ih =>
    intro v
    unfold digitsAcc at ih ⊢
    simp only [List.foldl_cons]
    exact le_trans (by omega) (ih (v * 10 + (c.toNat - 48)))

/-- The default of `getLastD` is irrelevant on a non-empty list. -/
theorem getLastD_cons_irrel {α : Type} (b : α) (l : List α) (d d' : α) :
    (b :: l).getLastD d = (b :: l).getLastD d' := by
  rw [List.getLastD_cons, List.getLastD_cons]

/-- One digit step of the `ParseOID` loop. -/
theorem parseOIDLoop_digit_step (c : Char) (h1 : '0' ≤ c) (h2 : c ≤ '9')
    (cs : List Char) (prev : Option Char) (acc : List Int) (v : Nat)
    (hb : v * 10 + (c.toNat - 48) < 2 ^ 63) :
    parseOIDLoop (c :: cs) prev acc (v : Int) =
      parseOIDLoop cs (some c) acc ((v * 10 + (c.toNat - 48) : Nat) : Int) := by
  have h48 := char_digit_toNat h1 h2
  simp only [parseOIDLoop]
  rw [if_neg (digit_ne_dot h1), if_pos (⟨h1, h2⟩ : '0' ≤ c ∧ c ≤ '9')]
  have harg : (v : Int) * 10 + ((c.toNat : Int) - 48) =
      ((v * 10 + (c.toNat - 48) : Nat) : Int) := by
    push_cast [h48.1]
    ring
  rw [harg, wrapInt64_eq_self (by positivity) (by exact_mod_cast hb)]

/-- Consuming a maximal run of digits in the `ParseOID` loop accumulates
their decimal value and leaves the last digit as the previous character. -/
theorem parseOIDLoop_digits : ∀ (ds : List Char), ds ≠ [] →
    (∀ c ∈ ds, '0' ≤ c ∧ c ≤ '9') →
    ∀ (rest : List Char) (prev : Option Char) (acc : List Int) (v : Nat),
      digitsAcc v ds < 2 ^ 63 →
      parseOIDLoop (ds ++ rest) prev acc (v : Int) =
        parseOIDLoop rest (some (ds.getLastD '0')) acc ((digitsAcc v ds : Nat) : Int)
  | [], hne, _, _, _, _, _, _ => absurd rfl hne
  | [c], _, hd, rest, prev, acc, v, hb => by
    have hc := hd c (List.mem_singleton.mpr rfl)
    have hb' : v * 10 + (c.toNat - 48) < 2 ^ 63 := hb
    simp only [List.cons_append, List.nil_append]
    rw [parseOIDLoop_digit_step c hc.1 hc.2 rest prev acc v hb']
    simp only [digitsAcc, List.foldl_cons, List.foldl_nil, List.getLastD_cons,
      List.getLastD_nil]
  | c :: c2 :: ds'', _, hd, rest, prev, acc, v, hb => by
    have hc := hd c (List.mem_cons_self c _)
    have hd' : ∀ x ∈ c2 :: ds'', '0' ≤ x ∧ x ≤ '9' :=
      fun x hx => hd x (List.mem_cons_of_mem c hx)
    have hbtail : digitsAcc (v * 10 + (c.toNat - 48)) (c2 :: ds'') < 2 ^ 63 := hb
    have hbstep : v * 10 + (c.toNat - 48) < 2 ^ 63 :=
      lt_of_le_of_lt (digitsAcc_le (c2 :: ds'') _) hbtail
    rw [List.cons_append]
    rw [parseOIDLoop_digit_step c hc.1 hc.2 ((c2 :: ds'') ++ rest) prev acc v hbstep]
    rw [parseOIDLoop_digits (c2 :: ds'') (by simp) hd' rest (some c) acc
      (v * 10 + (c.toNat - 48)) hbtail]
    rw [show ((c :: c2 :: ds'').getLastD '0') = ((c2 :: ds'').getLastD '0') from
      (List.getLastD_cons '0' c (c2 :: ds'')).trans (getLastD_cons_irrel c2 ds'' c '0')]
    rfl

/-- Digit-run lemma specialised to the reset accumulator `0` used at the
start of the string and after each dot. -/
theorem parseOIDLoop_digits_zero (ds : List Char) (hne : ds ≠ [])
    (hd : ∀ c ∈ ds, '0' ≤ c ∧ c ≤ '9') (rest : List Char) (prev : Option Char)
    (acc : List Int) (hb : digitsAcc 0 ds < 2 ^ 63) :
    parseOIDLoop (ds ++ rest) prev acc 0 =
      parseOIDLoop rest (some (ds.getLastD '0')) acc ((digitsAcc 0 ds : Nat) : Int) := by
  have h := parseOIDLoop_digits ds hne hd rest prev acc 0 hb
  simpa using h

/-- `strconv.Itoa` on a non-negative value has no sign character. -/
theorem intToString_nonneg {v : Int} (h : 0 ≤ v) :
    intToString v = natToDigits v.toNat := by
  unfold intToString
  rw [if_neg (by omega)]

/-- The last character of a decimal representation is a digit. -/
theorem natToDigits_getLastD_digit (n : Nat) :
    '0' ≤ (natToDigits n).getLastD '0' ∧ (natToDigits n).getLastD '0' ≤ '9' := by
  have hmem := List.getLastD_mem_cons (natToDigits n) '0'
  rcases List.mem_cons.mp hmem with h | h
  · rw [h]
    exact ⟨le_refl _, by decide⟩
  · exact natToDigits_digits n _ h

/-- A valid identifier has at least two elements, all within
`[0, 2^32 - 1]`. -/
theorem oidValidate_nil_facts {o : List Int} (h : oidValidate o = []) :
    2 ≤ o.length ∧ ∀ v ∈ o, 0 ≤ v ∧ v ≤ 4294967295 := by
  unfold oidValidate at h
  by_cases hl : o.length < 2
  · rw [if_pos hl] at h
    simp at h
  · rw [if_neg hl] at h
    refine ⟨by omega, ?_⟩
    intro v hv
    obtain ⟨i, hi⟩ : ∃ i, o[i]? = some v := by
      obtain ⟨i, hlt, hget⟩ := List.mem_iff_getElem.mp hv
      exact ⟨i, by rw [List.getElem?_eq_getElem hlt, hget]⟩
    have hnone := List.filterMap_eq_nil_iff.mp h (i, v)
      (List.mk_mem_enum_iff_getElem?.mpr hi)
    have hnone' : oidElemErr i v = none := hnone
    unfold oidElemErr at hnone'
    split_ifs at hnone' with h1 h2 h3
    exact ⟨by omega, by omega⟩

/-- Reassembling a non-empty list from its `dropLast` and `getLastD`. -/
theorem dropLast_append_getLastD {α : Type} :
    ∀ (l : List α) (x d : α), (x :: l).dropLast ++ [(x :: l).getLastD d] = x :: l
  | [], x, d => by simp
  | y :: t, x, d => by
    rw [List.getLastD_cons, List.dropLast_cons₂, List.cons_append]
    congr 1
    exact dropLast_append_getLastD t y x

/-- One dot step of the `ParseOID` loop after a digit: flushes the pending
value and resets the accumulator. -/
theorem parseOIDLoop_dot_step (cs : List Char) (hne : cs ≠ []) (p : Char)
    (hp : '0' ≤ p) (acc : List Int) (v : Int) :
    parseOIDLoop ('.' :: cs) (some p) acc v =
      parseOIDLoop cs (some '.') (acc ++ [v]) 0 := by
  simp only [parseOIDLoop]
  simp [hne, digit_ne_dot hp]

/-- The `i > 0` tail of the `OID.String` output parses back into the
remaining elements: each round consumes a dot and a decimal run, flushing
the pending value. -/
theorem parseOIDLoop_tail :
    ∀ (rest : List Int), (∀ u ∈ rest, 0 ≤ u ∧ u ≤ 4294967295) →
    ∀ (p : Char), ('0' ≤ p ∧ p ≤ '9') →
    ∀ (acc : List Int) (v : Int),
      parseOIDLoop (oidTailChars rest) (some p) acc v =
        .ok (acc ++ (v :: rest).dropLast, (v :: rest).getLastD 0)
  | [], _, p, hp, acc, v => by
    simp [oidTailChars, parseOIDLoop, List.getLastD]
  | u :: rest', hr, p, hp, acc, v => by
    have hu := hr u (List.mem_cons_self u rest')
    have hus : intToString u = natToDigits u.toNat := intToString_nonneg hu.1
    have hone : digitsAcc 0 (natToDigits u.toNat) < 2 ^ 63 := by
      rw [digitsAcc_natToDigits]
      omega
    have hne : intToString u ++ oidTailChars rest' ≠ [] := by
      rw [hus]
      intro hnil
      exact natToDigits_ne_nil u.toNat (List.append_eq_nil.mp hnil).1
    simp only [oidTailChars]
    rw [List.cons_append]
    rw [parseOIDLoop_dot_step (intToString u ++ oidTailChars rest') hne p hp.1 acc v]
    rw [hus, parseOIDLoop_digits_zero (natToDigits u.toNat) (natToDigits_ne_nil _)
      (natToDigits_digits _) (oidTailChars rest') (some '.') (acc ++ [v]) hone]
    rw [digitsAcc_natToDigits, Int.toNat_of_nonneg hu.1]
    rw [parseOIDLoop_tail rest' (fun w hw => hr w (List.mem_cons_of_mem u hw))
      ((natToDigits u.toNat).getLastD '0') (natToDigits_getLastD_digit u.toNat)
      (acc ++ [v]) u]
    rw [show ((v :: u :: rest').getLastD 0) = ((u :: rest').getLastD 0) from
      (List.getLastD_cons 0 v (u :: rest')).trans (getLastD_cons_irrel u rest' v 0)]
    congr 1
    rw [List.dropLast_cons₂, List.append_assoc]
    rfl

/-- `ParseOID` after a successful loop: append the pending value and attach
the result of the final validation. -/
theorem parseOID_of_loop_ok {s : List Char} {oid : List Int} {v : Int}
    (hl : parseOIDLoop s none [] 0 = .ok (oid, v)) :
    parseOID s = (some (oid ++ [v]),
      if oidValidate (oid ++ [v]) = [] then none
      else some (.invalidOID (oidValidate (oid ++ [v])))) := by
  unfold parseOID
  rw [hl]

/-- Claim C8: for every valid identifier, parsing the dot-joined decimal
string produced by `OID.String` succeeds with exactly the original
identifier (and hence the parsed identifier's `String()` equals the input
string). -/
theorem parseOID_roundtrip (o : List Int) (h : oidValidate o = []) :
    parseOID (oidStringChars o) = (some o, none) := by
  obtain ⟨hlen2, hbounds⟩ := oidValidate_nil_facts h
  obtain ⟨v0, rest, rfl⟩ : ∃ v0 rest, o = v0 :: rest := by
    cases o with
    | nil => simp at hlen2
    | cons v0 rest => exact ⟨v0, rest, rfl⟩
  have hv0 := hbounds v0 (List.mem_cons_self v0 rest)
  have hb0 : digitsAcc 0 (natToDigits v0.toNat) < 2 ^ 63 := by
    rw [digitsAcc_natToDigits]
    omega
  have hloop : parseOIDLoop (oidStringChars (v0 :: rest)) none [] 0 =
      .ok ((v0 :: rest).dropLast, (v0 :: rest).getLastD 0) := by
    simp only [oidStringChars]
    rw [intToString_nonneg hv0.1,
      parseOIDLoop_digits_zero (natToDigits v0.toNat) (natToDigits_ne_nil _)
        (natToDigits_digits _) (oidTailChars rest) none [] hb0,
      digitsAcc_natToDigits, Int.toNat_of_nonneg hv0.1,
      parseOIDLoop_tail rest (fun w hw => hbounds w (List.mem_cons_of_mem v0 hw))
        ((natToDigits v0.toNat).getLastD '0') (natToDigits_getLastD_digit v0.toNat)
        [] v0]
    rw [List.nil_append]
  rw [parseOID_of_loop_ok hloop, dropLast_append_getLastD rest v0 0, h]
  simp

/-- Witness for C8 at the identifier `[1, 3]`, whose string form is
`"1.3"`. -/
theorem parseOID_roundtrip_witness :
    oidValidate [1, 3] = [] ∧ parseOID (oidStringChars [1, 3]) = (some [1, 3], none) :=
  ⟨by decide, parseOID_roundtrip [1, 3] (by decide)⟩
